import Mathlib

/-!
Lottery: the Hardhat configuration module `hardhat.config.js`.

The module reads the file `.secret` synchronously, decodes it, trims it and
places the result in the account list of the `rinkeby` network of an otherwise
constant configuration object.

The embedding follows the module statement by statement:

* `fs.readFileSync(".secret")` is `readFileSync`, a state-passing function over
  a `World` (the files plus the log of file-system accesses); it throws a
  `SystemError` when the path names nothing, names a directory, names a file
  the process may not read, or cannot be resolved for a loop of links;
* `.toString()` is `Buffer.toString` (UTF-8 decoding; a buffer is represented by
  the text it decodes to, which is always a sequence of Unicode scalar values);
* `.trim()` is `trim`, the ECMAScript `String.prototype.trim`: it strips the
  code points of the `WhiteSpace` and `LineTerminator` productions from both
  ends;
* the object literal assigned to `module.exports` is `moduleExports`;
* evaluating the whole module is `loadConfig`.
-/

namespace Lottery

/-! Strings: `String.prototype.trim` -/

/-- ECMAScript `WhiteSpace`: TAB, VT, FF, ZWNBSP and the Unicode
space separators (general category Zs). -/
def isWhiteSpace (c : Char) : Bool :=
  let n := c.toNat
  n == 0x0009 || n == 0x000B || n == 0x000C || n == 0xFEFF ||
  n == 0x0020 || n == 0x00A0 || n == 0x1680 ||
  (0x2000 ≤ n && n ≤ 0x200A) ||
  n == 0x202F || n == 0x205F || n == 0x3000

/-- ECMAScript `LineTerminator`: LF, CR, LS and PS. -/
def isLineTerminator (c : Char) : Bool :=
  let n := c.toNat
  n == 0x000A || n == 0x000D || n == 0x2028 || n == 0x2029

/-- The code points removed by `trim` (`StrWhiteSpaceChar`). -/
def isStrWhiteSpaceChar (c : Char) : Bool :=
  isWhiteSpace c || isLineTerminator c

/-- `TrimString(S, start)`: drop the leading white space. -/
def trimStart (cs : List Char) : List Char :=
  cs.dropWhile isStrWhiteSpaceChar

/-- `TrimString(S, end)`: drop the trailing white space. -/
def trimEnd (cs : List Char) : List Char :=
  (cs.reverse.dropWhile isStrWhiteSpaceChar).reverse

/-- `String.prototype.trim`: drop the leading and the trailing white space. -/
def trim (s : String) : String :=
  ⟨trimEnd (trimStart s.data)⟩

/-! The file system: `fs.readFileSync` -/

/-- The result of reading a file: its bytes, represented by the text they
decode to as UTF-8. -/
structure Buffer where
  decoded : String
  deriving DecidableEq, Repr

/-- `buf.toString()` with the default encoding. -/
def Buffer.toString (b : Buffer) : String :=
  b.decoded

/-- What a path of the file system names, symbolic links followed: a regular
file the process may read, a regular file it may not read, or a directory;
`linkLoop` is a path whose links cannot be followed to an end. A path that
leads to nothing (a dangling link too) has no entry. -/
inductive Entry where
  | file (data : Buffer)
  | unreadable (data : Buffer)
  | dir
  | linkLoop
  deriving DecidableEq, Repr

/-- One access to the file system. -/
inductive Event where
  | read (path : String)
  | write (path : String) (data : Buffer)
  deriving DecidableEq, Repr

/-- The errors `fs.readFileSync` throws, by their `code`. -/
inductive SystemError where
  | ENOENT (path : String)
  | EISDIR (path : String)
  | EACCES (path : String)
  | ELOOP (path : String)
  deriving DecidableEq, Repr

/-- The explicit state: the files by path and the accesses made so far, oldest first. -/
structure World where
  files : List (String × Entry)
  log : List Event
  deriving DecidableEq, Repr

/-- `fs.readFileSync(path)`: the content of the file as a buffer; throws
`ENOENT` when nothing has that path, `EISDIR` when a directory has it, `EACCES`
when the file may not be read and `ELOOP` when the links of the path do not
end. The files are left as they are and the read is logged. -/
def readFileSync (path : String) (w : World) : Except SystemError Buffer × World :=
  let w1 : World := { w with log := w.log ++ [Event.read path] }
  match w.files.lookup path with
  | none => (.error (.ENOENT path), w1)
  | some .dir => (.error (.EISDIR path), w1)
  | some .linkLoop => (.error (.ELOOP path), w1)
  | some (.unreadable _) => (.error (.EACCES path), w1)
  | some (.file data) => (.ok data, w1)

/-! The configuration object -/

/-- The value of `networks.<name>`. -/
structure NetworkConfig where
  url : String
  accounts : List String
  deriving DecidableEq, Repr

/-- The value of `solidity.settings.optimizer`. -/
structure OptimizerConfig where
  enabled : Bool
  runs : Nat
  deriving DecidableEq, Repr

/-- The value of `solidity.settings`. -/
structure SettingsConfig where
  optimizer : OptimizerConfig
  deriving DecidableEq, Repr

/-- The value of `solidity`. -/
structure SolidityConfig where
  version : String
  settings : SettingsConfig
  deriving DecidableEq, Repr

/-- The value of `paths`. -/
structure PathsConfig where
  sources : String
  cache : String
  artifacts : String
  deriving DecidableEq, Repr

/-- The value of `mocha`. -/
structure MochaConfig where
  timeout : Nat
  deriving DecidableEq, Repr

/-- The object assigned to `module.exports`; `networks` is an object used as a
mapping, kept as its list of properties in source order. -/
structure RootConfig where
  defaultNetwork : String
  networks : List (String × NetworkConfig)
  solidity : SolidityConfig
  paths : PathsConfig
  mocha : MochaConfig
  deriving DecidableEq, Repr

/-- The object literal of the module, with the value of the constant
`privateKey` as its parameter. -/
def moduleExports (privateKey : String) : RootConfig :=
  { defaultNetwork := "rinkeby"
    networks :=
      [("rinkeby",
        { url := "https://rinkeby.infura.io/v3/"
          accounts := [privateKey] })]
    solidity :=
      { version := "0.5.10"
        settings :=
          { optimizer :=
              { enabled := true
                runs := 200 } } }
    paths :=
      { sources := "./contracts"
        cache := "./cache"
        artifacts := "./artifacts" }
    mocha :=
      { timeout := 20000 } }

/-- Evaluation of the module: read `.secret`, decode, trim, build the object.
An exception thrown by the read leaves the module without exports. -/
def loadConfig (w : World) : Except SystemError RootConfig × World :=
  match readFileSync ".secret" w with
  | (.error e, w1) => (.error e, w1)
  | (.ok buf, w1) =>
    let privateKey := trim buf.toString
    (.ok (moduleExports privateKey), w1)

/-- The world whose only file is `.secret`, readable, with the given text. -/
def secretWorld (s : String) : World :=
  { files := [(".secret", .file ⟨s⟩)], log := [] }

/-! Facts about `trim` -/

theorem dropWhile_append_of_all {p : Char → Bool} (l c : List Char)
    (hl : ∀ x ∈ l, p x = true) : (l ++ c).dropWhile p = c.dropWhile p := by
  induction l with
  | nil => rfl
  | cons a t ih =>
    have ha : p a = true := hl a (List.mem_cons_self a t)
    have ht : ∀ x ∈ t, p x = true := fun x hx => hl x (List.mem_cons_of_mem a hx)
    simp [List.dropWhile_cons, ha, ih ht]

theorem dropWhile_append_of_exists {p : Char → Bool} (c r : List Char)
    (hc : ∃ x ∈ c, p x = false) : (c ++ r).dropWhile p = c.dropWhile p ++ r := by
  induction c with
  | nil => simp at hc
  | cons a t ih =>
    by_cases ha : p a = true
    · have ht : ∃ x ∈ t, p x = false := by
        obtain ⟨x, hx, hpx⟩ := hc
        rcases List.mem_cons.mp hx with rfl | hx
        · simp [ha] at hpx
        · exact ⟨x, hx, hpx⟩
      simp [List.dropWhile_cons, ha, ih ht]
    · simp [List.dropWhile_cons, ha]

theorem dropWhile_eq_nil_of_all {p : Char → Bool} (l : List Char)
    (hl : ∀ x ∈ l, p x = true) : l.dropWhile p = [] := by
  simpa using dropWhile_append_of_all l [] hl

theorem trimStart_append_left (l c : List Char)
    (hl : ∀ x ∈ l, isStrWhiteSpaceChar x = true) : trimStart (l ++ c) = trimStart c :=
  dropWhile_append_of_all l c hl

theorem trimEnd_append_right (c r : List Char)
    (hr : ∀ x ∈ r, isStrWhiteSpaceChar x = true) : trimEnd (c ++ r) = trimEnd c := by
  unfold trimEnd
  rw [List.reverse_append, dropWhile_append_of_all r.reverse c.reverse]
  intro x hx
  exact hr x (List.mem_reverse.mp hx)

theorem trimStart_eq_nil_of_all (l : List Char)
    (hl : ∀ x ∈ l, isStrWhiteSpaceChar x = true) : trimStart l = [] :=
  dropWhile_eq_nil_of_all l hl

/-- Trimming ignores white space added around a text. -/
theorem trim_chars_pad (l c r : List Char)
    (hl : ∀ x ∈ l, isStrWhiteSpaceChar x = true)
    (hr : ∀ x ∈ r, isStrWhiteSpaceChar x = true) :
    trimEnd (trimStart (l ++ c ++ r)) = trimEnd (trimStart c) := by
  rw [List.append_assoc, trimStart_append_left l (c ++ r) hl]
  by_cases hc : ∀ x ∈ c, isStrWhiteSpaceChar x = true
  · have hcr : ∀ x ∈ c ++ r, isStrWhiteSpaceChar x = true := by
      intro x hx
      rcases List.mem_append.mp hx with h | h
      · exact hc x h
      · exact hr x h
    rw [trimStart_eq_nil_of_all _ hcr, trimStart_eq_nil_of_all _ hc]
  · have hc' : ∃ x ∈ c, isStrWhiteSpaceChar x = false := by
      by_contra hne
      apply hc
      intro x hx
      by_contra hpx
      exact hne ⟨x, hx, by simpa using hpx⟩
    unfold trimStart
    rw [dropWhile_append_of_exists c r hc', trimEnd_append_right _ r hr]

/-- The text is its trimmed part between two runs of white space. -/
theorem trim_chars_split (cs : List Char) :
    ∃ l r : List Char, cs = l ++ trimEnd (trimStart cs) ++ r ∧
      (∀ x ∈ l, isStrWhiteSpaceChar x = true) ∧
      (∀ x ∈ r, isStrWhiteSpaceChar x = true) := by
  refine ⟨cs.takeWhile isStrWhiteSpaceChar,
    ((trimStart cs).reverse.takeWhile isStrWhiteSpaceChar).reverse, ?_, ?_, ?_⟩
  · have h1 : trimEnd (trimStart cs) ++
        ((trimStart cs).reverse.takeWhile isStrWhiteSpaceChar).reverse = trimStart cs := by
      unfold trimEnd
      rw [← List.reverse_append, List.takeWhile_append_dropWhile, List.reverse_reverse]
    rw [List.append_assoc, h1]
    exact (List.takeWhile_append_dropWhile isStrWhiteSpaceChar cs).symm
  · intro x hx
    exact List.mem_takeWhile_imp hx
  · intro x hx
    exact List.mem_takeWhile_imp (List.mem_reverse.mp hx)

/-- The trimmed text does not begin with white space. -/
theorem trim_chars_head (cs : List Char) (c : Char)
    (h : (trimEnd (trimStart cs)).head? = some c) : isStrWhiteSpaceChar c = false := by
  have hpre : trimEnd (trimStart cs) <+: trimStart cs := by
    refine ⟨((trimStart cs).reverse.takeWhile isStrWhiteSpaceChar).reverse, ?_⟩
    unfold trimEnd
    rw [← List.reverse_append, List.takeWhile_append_dropWhile, List.reverse_reverse]
  obtain ⟨r, hr⟩ := hpre
  cases ht : trimEnd (trimStart cs) with
  | nil => rw [ht] at h; simp at h
  | cons a t =>
    rw [ht] at h hr
    simp at h
    subst h
    have hd : (trimStart cs).head? = some a := by rw [← hr]; rfl
    unfold trimStart at hd
    have := List.head?_dropWhile_not isStrWhiteSpaceChar cs
    rw [hd] at this
    simpa using this

/-- The trimmed text does not end with white space. -/
theorem trim_chars_getLast (cs : List Char) (c : Char)
    (h : (trimEnd (trimStart cs)).getLast? = some c) : isStrWhiteSpaceChar c = false := by
  have hrev : (trimEnd (trimStart cs)).reverse.head? = some c := by
    rw [List.head?_reverse]; exact h
  unfold trimEnd at hrev
  rw [List.reverse_reverse] at hrev
  have := List.head?_dropWhile_not isStrWhiteSpaceChar (trimStart cs).reverse
  rw [hrev] at this
  simpa using this

/-- A text that neither begins nor ends with white space is left as it is. -/
theorem trim_chars_fixed (cs : List Char)
    (hh : ∀ c, cs.head? = some c → isStrWhiteSpaceChar c = false)
    (hl : ∀ c, cs.getLast? = some c → isStrWhiteSpaceChar c = false) :
    trimEnd (trimStart cs) = cs := by
  have h1 : trimStart cs = cs := by
    cases cs with
    | nil => rfl
    | cons a t =>
      have := hh a rfl
      simp [trimStart, List.dropWhile_cons, this]
  rw [h1]
  unfold trimEnd
  cases hr : cs.reverse with
  | nil => simp at hr; simp [hr]
  | cons a t =>
    have ha : cs.getLast? = some a := by
      rw [← List.head?_reverse, hr]; rfl
    have := hl a ha
    simp only [List.dropWhile_cons, this]
    rw [← hr]; simp

theorem trim_chars_idem (cs : List Char) :
    trimEnd (trimStart (trimEnd (trimStart cs))) = trimEnd (trimStart cs) :=
  trim_chars_fixed _ (trim_chars_head cs) (trim_chars_getLast cs)

/-! Facts about `loadConfig` -/

/-- What the module evaluates to when `.secret` is a file. -/
theorem loadConfig_of_file (w : World) (b : Buffer)
    (h : w.files.lookup ".secret" = some (.file b)) :
    loadConfig w =
      (.ok (moduleExports (trim b.toString)), { w with log := w.log ++ [Event.read ".secret"] }) := by
  simp [loadConfig, readFileSync, h]

/-- What the module evaluates to when nothing is called `.secret`. -/
theorem loadConfig_of_absent (w : World) (h : w.files.lookup ".secret" = none) :
    loadConfig w =
      (.error (.ENOENT ".secret"), { w with log := w.log ++ [Event.read ".secret"] }) := by
  simp [loadConfig, readFileSync, h]

/-- What the module evaluates to when `.secret` is a directory. -/
theorem loadConfig_of_dir (w : World) (h : w.files.lookup ".secret" = some .dir) :
    loadConfig w =
      (.error (.EISDIR ".secret"), { w with log := w.log ++ [Event.read ".secret"] }) := by
  simp [loadConfig, readFileSync, h]

/-- What the module evaluates to when `.secret` may not be read. -/
theorem loadConfig_of_unreadable (w : World) (b : Buffer)
    (h : w.files.lookup ".secret" = some (.unreadable b)) :
    loadConfig w =
      (.error (.EACCES ".secret"), { w with log := w.log ++ [Event.read ".secret"] }) := by
  simp [loadConfig, readFileSync, h]

/-- What the module evaluates to when the links of `.secret` do not end. -/
theorem loadConfig_of_linkLoop (w : World) (h : w.files.lookup ".secret" = some .linkLoop) :
    loadConfig w =
      (.error (.ELOOP ".secret"), { w with log := w.log ++ [Event.read ".secret"] }) := by
  simp [loadConfig, readFileSync, h]

/-- When the read returns a buffer, the module exports the object built from
its trimmed text. -/
theorem loadConfig_of_read_ok (w : World) (b : Buffer)
    (h : (readFileSync ".secret" w).1 = .ok b) :
    (loadConfig w).1 = .ok (moduleExports (trim b.toString)) := by
  unfold loadConfig
  rcases hr : readFileSync ".secret" w with ⟨r, w1⟩
  rw [hr] at h
  cases r with
  | error e => cases h
  | ok b0 =>
    simp only [Except.ok.injEq] at h
    subst h
    rfl

/-- The only errors of the module are those thrown by the read. -/
theorem loadConfig_error_inv (w : World) (e : SystemError)
    (h : (loadConfig w).1 = .error e) : (readFileSync ".secret" w).1 = .error e := by
  unfold loadConfig at h
  rcases hr : readFileSync ".secret" w with ⟨r, w1⟩
  rw [hr] at h
  cases r with
  | error e0 =>
    simp only [Except.error.injEq] at h
    subst h
    rfl
  | ok b0 => cases h

/-- A configuration is only ever produced from a file `.secret`. -/
theorem loadConfig_ok_inv (w : World) (cfg : RootConfig) (h : (loadConfig w).1 = .ok cfg) :
    ∃ b, w.files.lookup ".secret" = some (.file b) ∧ cfg = moduleExports (trim b.toString) := by
  cases hl : w.files.lookup ".secret" with
  | none => rw [loadConfig_of_absent w hl] at h; simp at h
  | some e =>
    cases e with
    | dir => rw [loadConfig_of_dir w hl] at h; simp at h
    | linkLoop => rw [loadConfig_of_linkLoop w hl] at h; simp at h
    | unreadable b => rw [loadConfig_of_unreadable w b hl] at h; simp at h
    | file b =>
      rw [loadConfig_of_file w b hl] at h
      refine ⟨b, rfl, ?_⟩
      simp at h
      exact h.symm

/-- The world after the module has been evaluated. -/
theorem loadConfig_world (w : World) :
    (loadConfig w).2 = { w with log := w.log ++ [Event.read ".secret"] } := by
  cases hl : w.files.lookup ".secret" with
  | none => rw [loadConfig_of_absent w hl]
  | some e =>
    cases e with
    | dir => rw [loadConfig_of_dir w hl]
    | linkLoop => rw [loadConfig_of_linkLoop w hl]
    | unreadable b => rw [loadConfig_of_unreadable w b hl]
    | file b => rw [loadConfig_of_file w b hl]

/-- The result depends on the world through the entry `.secret` alone. -/
theorem loadConfig_result_congr (w w' : World)
    (h : w'.files.lookup ".secret" = w.files.lookup ".secret") :
    (loadConfig w').1 = (loadConfig w).1 := by
  cases hl : w.files.lookup ".secret" with
  | none => rw [loadConfig_of_absent w hl, loadConfig_of_absent w' (h.trans hl)]
  | some e =>
    cases e with
    | dir => rw [loadConfig_of_dir w hl, loadConfig_of_dir w' (h.trans hl)]
    | linkLoop => rw [loadConfig_of_linkLoop w hl, loadConfig_of_linkLoop w' (h.trans hl)]
    | unreadable b =>
      rw [loadConfig_of_unreadable w b hl, loadConfig_of_unreadable w' b (h.trans hl)]
    | file b => rw [loadConfig_of_file w b hl, loadConfig_of_file w' b (h.trans hl)]

/-- A text made of white space trims to the empty string. -/
theorem trim_of_blank (s : String) (h : ∀ c ∈ s.data, isStrWhiteSpaceChar c = true) :
    trim s = "" := by
  unfold trim
  rw [trimStart_eq_nil_of_all _ h]
  rfl

/-! The claims -/

/-- C1: when `.secret` holds the text `s` and loading succeeds, the accounts of
`networks.rinkeby` are the one-element list whose element is `trim s`; `trim s`
is `s` without a leading and a trailing run of white space, and it neither
begins nor ends with white space; for the text `"abc123\n"` the account is
`"abc123"`. -/
theorem loadConfig_accounts_trimmed (w : World) (s : String) (cfg : RootConfig)
    (hs : w.files.lookup ".secret" = some (.file ⟨s⟩))
    (hok : (loadConfig w).1 = .ok cfg) :
    (cfg.networks.lookup "rinkeby").map NetworkConfig.accounts = some [trim s] ∧
    (∃ l r : List Char, s.data = l ++ (trim s).data ++ r ∧
      (∀ x ∈ l, isStrWhiteSpaceChar x = true) ∧
      (∀ x ∈ r, isStrWhiteSpaceChar x = true) ∧
      (∀ c, (trim s).data.head? = some c → isStrWhiteSpaceChar c = false) ∧
      (∀ c, (trim s).data.getLast? = some c → isStrWhiteSpaceChar c = false)) ∧
    (s = "abc123\n" →
      (cfg.networks.lookup "rinkeby").map NetworkConfig.accounts = some ["abc123"]) := by
  rw [loadConfig_of_file w ⟨s⟩ hs] at hok
  simp only [Except.ok.injEq] at hok
  subst hok
  refine ⟨rfl, ?_, ?_⟩
  · obtain ⟨l, r, hsplit, hl, hr⟩ := trim_chars_split s.data
    exact ⟨l, r, hsplit, hl, hr, trim_chars_head s.data, trim_chars_getLast s.data⟩
  · intro h
    subst h
    rfl

theorem loadConfig_accounts_trimmed_witness :
    ((moduleExports "abc123").networks.lookup "rinkeby").map NetworkConfig.accounts
        = some [trim "abc123\n"] ∧
    (∃ l r : List Char, "abc123\n".data = l ++ (trim "abc123\n").data ++ r ∧
      (∀ x ∈ l, isStrWhiteSpaceChar x = true) ∧
      (∀ x ∈ r, isStrWhiteSpaceChar x = true) ∧
      (∀ c, (trim "abc123\n").data.head? = some c → isStrWhiteSpaceChar c = false) ∧
      (∀ c, (trim "abc123\n").data.getLast? = some c → isStrWhiteSpaceChar c = false)) ∧
    ("abc123\n" = "abc123\n" →
      ((moduleExports "abc123").networks.lookup "rinkeby").map NetworkConfig.accounts
        = some ["abc123"]) :=
  loadConfig_accounts_trimmed (secretWorld "abc123\n") "abc123\n" (moduleExports "abc123")
    rfl rfl

/-- C2, as stated, fails: with `.secret` a readable file holding only white
space (or nothing) loading does not fail; it returns the configuration whose
account is the empty string. -/
theorem loadConfig_blank_succeeds_counterexample :
    (∀ c ∈ " \n\t".data, isStrWhiteSpaceChar c = true) ∧
    (loadConfig (secretWorld " \n\t")).1 = .ok (moduleExports "") ∧
    (∀ e, (loadConfig (secretWorld " \n\t")).1 ≠ .error e) ∧
    (loadConfig (secretWorld "")).1 = .ok (moduleExports "") ∧
    (∀ e, (loadConfig (secretWorld "")).1 ≠ .error e) := by
  refine ⟨by decide, rfl, ?_, rfl, ?_⟩
  · intro e h
    have h1 : (loadConfig (secretWorld " \n\t")).1 = .ok (moduleExports "") := rfl
    rw [h1] at h
    cases h
  · intro e h
    have h1 : (loadConfig (secretWorld "")).1 = .ok (moduleExports "") := rfl
    rw [h1] at h
    cases h

/-- C2, amended: when the read of `.secret` returns a text that is empty or
made of white space only, loading succeeds and the accounts of
`networks.rinkeby` are the one-element list holding the empty string; and
whatever `.secret` is, an error of loading is the error thrown by the read of
the file, so there is no error of loading for an empty credential. -/
theorem loadConfig_blank_empty_account (w : World) (s : String)
    (hread : (readFileSync ".secret" w).1 = .ok ⟨s⟩)
    (hblank : ∀ c ∈ s.data, isStrWhiteSpaceChar c = true) :
    (loadConfig w).1 = .ok (moduleExports "") ∧
    ((moduleExports "").networks.lookup "rinkeby").map NetworkConfig.accounts = some [""] ∧
    (∀ e, (loadConfig w).1 ≠ .error e) ∧
    (∀ (v : World) (e : SystemError),
      (loadConfig v).1 = .error e → (readFileSync ".secret" v).1 = .error e) := by
  have h1 : (loadConfig w).1 = .ok (moduleExports "") := by
    rw [loadConfig_of_read_ok w ⟨s⟩ hread]
    show Except.ok (moduleExports (trim s)) = _
    rw [trim_of_blank s hblank]
  refine ⟨h1, rfl, ?_, loadConfig_error_inv⟩
  intro e h
  rw [h1] at h
  cases h

theorem loadConfig_blank_empty_account_witness :
    (readFileSync ".secret" (secretWorld "\r\n  ")).1 = .ok ⟨"\r\n  "⟩ ∧
    (∀ c ∈ "\r\n  ".data, isStrWhiteSpaceChar c = true) ∧
    (loadConfig (secretWorld "\r\n  ")).1 = .ok (moduleExports "") ∧
    ((moduleExports "").networks.lookup "rinkeby").map NetworkConfig.accounts = some [""] ∧
    (∀ e, (loadConfig (secretWorld "\r\n  ")).1 ≠ .error e) ∧
    (loadConfig (World.mk [(".secret", .unreadable ⟨"\r\n  "⟩)] [])).1
      = .error (.EACCES ".secret") ∧
    (readFileSync ".secret" (World.mk [(".secret", .unreadable ⟨"\r\n  "⟩)] [])).1
      = .error (.EACCES ".secret") :=
  have h := loadConfig_blank_empty_account (secretWorld "\r\n  ") "\r\n  " rfl (by decide)
  ⟨rfl, by decide, h.1, h.2.1, h.2.2.1, rfl,
    h.2.2.2 (World.mk [(".secret", .unreadable ⟨"\r\n  "⟩)] []) (.EACCES ".secret") rfl⟩

/-- C3: loading fails with `ENOENT` (file not found) exactly when nothing is
called `.secret`; then no configuration is produced, the error is the one thrown
by the read, and the file system has been accessed by that one read only (the
read is not tried again). -/
theorem loadConfig_ENOENT_iff_absent (w : World) :
    ((∃ p, (loadConfig w).1 = .error (.ENOENT p)) ↔ w.files.lookup ".secret" = none) ∧
    (w.files.lookup ".secret" = none →
      (loadConfig w).1 = .error (.ENOENT ".secret") ∧
      (∀ cfg, (loadConfig w).1 ≠ .ok cfg) ∧
      (readFileSync ".secret" w).1 = .error (.ENOENT ".secret") ∧
      (loadConfig w).2.log = w.log ++ [Event.read ".secret"]) := by
  have key : w.files.lookup ".secret" = none →
      (loadConfig w).1 = .error (.ENOENT ".secret") ∧
      (∀ cfg, (loadConfig w).1 ≠ .ok cfg) ∧
      (readFileSync ".secret" w).1 = .error (.ENOENT ".secret") ∧
      (loadConfig w).2.log = w.log ++ [Event.read ".secret"] := by
    intro h
    rw [loadConfig_of_absent w h]
    refine ⟨rfl, ?_, ?_, rfl⟩
    · intro cfg hc
      cases hc
    · simp [readFileSync, h]
  refine ⟨⟨?_, fun h => ⟨".secret", (key h).1⟩⟩, key⟩
  rintro ⟨p, hp⟩
  cases hl : w.files.lookup ".secret" with
  | none => rfl
  | some e =>
    cases e with
    | dir => rw [loadConfig_of_dir w hl] at hp; cases hp
    | linkLoop => rw [loadConfig_of_linkLoop w hl] at hp; cases hp
    | unreadable b => rw [loadConfig_of_unreadable w b hl] at hp; cases hp
    | file b => rw [loadConfig_of_file w b hl] at hp; cases hp

theorem loadConfig_ENOENT_iff_absent_witness :
    (World.mk [("README.md", .file ⟨"Lottery"⟩)] []).files.lookup ".secret" = none ∧
    (loadConfig (World.mk [("README.md", .file ⟨"Lottery"⟩)] [])).1
      = .error (.ENOENT ".secret") ∧
    (∀ cfg, (loadConfig (World.mk [("README.md", .file ⟨"Lottery"⟩)] [])).1 ≠ .ok cfg) ∧
    (readFileSync ".secret" (World.mk [("README.md", .file ⟨"Lottery"⟩)] [])).1
      = .error (.ENOENT ".secret") ∧
    (loadConfig (World.mk [("README.md", .file ⟨"Lottery"⟩)] [])).2.log
      = [] ++ [Event.read ".secret"] :=
  ⟨rfl, (loadConfig_ENOENT_iff_absent (World.mk [("README.md", .file ⟨"Lottery"⟩)] [])).2 rfl⟩

/-- C4: every successfully loaded configuration has
`networks["rinkeby"].url = "https://rinkeby.infura.io/v3/"`,
`solidity.version = "0.5.10"`, `solidity.settings.optimizer.runs = 200` and
`mocha.timeout = 20000`. -/
theorem loadConfig_fixed_values (w : World) (cfg : RootConfig)
    (hok : (loadConfig w).1 = .ok cfg) :
    (cfg.networks.lookup "rinkeby").map NetworkConfig.url
      = some "https://rinkeby.infura.io/v3/" ∧
    cfg.solidity.version = "0.5.10" ∧
    cfg.solidity.settings.optimizer.runs = 200 ∧
    cfg.mocha.timeout = 20000 := by
  obtain ⟨b, -, rfl⟩ := loadConfig_ok_inv w cfg hok
  exact ⟨rfl, rfl, rfl, rfl⟩

theorem loadConfig_fixed_values_witness :
    (loadConfig (secretWorld "0xA1\n")).1 = .ok (moduleExports "0xA1") ∧
    ((moduleExports "0xA1").networks.lookup "rinkeby").map NetworkConfig.url
      = some "https://rinkeby.infura.io/v3/" ∧
    (moduleExports "0xA1").solidity.version = "0.5.10" ∧
    (moduleExports "0xA1").solidity.settings.optimizer.runs = 200 ∧
    (moduleExports "0xA1").mocha.timeout = 20000 :=
  ⟨rfl, loadConfig_fixed_values (secretWorld "0xA1\n") (moduleExports "0xA1") rfl⟩

/-- C5: loading is deterministic: loading again in the world left by a first
load gives the same result (the same configuration or the same error), and so
does loading in any world in which the entry `.secret` is the same. -/
theorem loadConfig_twice_same_result (w w' : World) :
    (loadConfig (loadConfig w).2).1 = (loadConfig w).1 ∧
    (w'.files.lookup ".secret" = w.files.lookup ".secret" →
      (loadConfig w').1 = (loadConfig w).1) := by
  refine ⟨?_, loadConfig_result_congr w w'⟩
  apply loadConfig_result_congr
  rw [loadConfig_world]

theorem loadConfig_twice_same_result_witness :
    (loadConfig (loadConfig (secretWorld " k1 ")).2).1 = (loadConfig (secretWorld " k1 ")).1 ∧
    (World.mk [("a.txt", .dir), (".secret", .file ⟨" k1 "⟩)] [Event.read "a.txt"]).files.lookup
        ".secret" = (secretWorld " k1 ").files.lookup ".secret" ∧
    (loadConfig (World.mk [("a.txt", .dir), (".secret", .file ⟨" k1 "⟩)] [Event.read "a.txt"])).1
      = (loadConfig (secretWorld " k1 ")).1 :=
  ⟨(loadConfig_twice_same_result (secretWorld " k1 ") (secretWorld " k1 ")).1, rfl,
    (loadConfig_twice_same_result (secretWorld " k1 ")
      (World.mk [("a.txt", .dir), (".secret", .file ⟨" k1 "⟩)] [Event.read "a.txt"])).2 rfl⟩

/-- C6: in every successfully loaded configuration `defaultNetwork` is
`"rinkeby"`, it is a key of `networks`, and the accounts of the network it
selects are a non-empty list. -/
theorem loadConfig_default_network_invariant (w : World) (cfg : RootConfig)
    (hok : (loadConfig w).1 = .ok cfg) :
    cfg.defaultNetwork = "rinkeby" ∧
    cfg.defaultNetwork ∈ cfg.networks.map Prod.fst ∧
    ∃ n, cfg.networks.lookup cfg.defaultNetwork = some n ∧ n.accounts ≠ [] := by
  obtain ⟨b, -, rfl⟩ := loadConfig_ok_inv w cfg hok
  refine ⟨rfl, by simp [moduleExports], ⟨_, rfl, ?_⟩⟩
  simp

theorem loadConfig_default_network_invariant_witness :
    (loadConfig (secretWorld "")).1 = .ok (moduleExports "") ∧
    (moduleExports "").defaultNetwork = "rinkeby" ∧
    (moduleExports "").defaultNetwork ∈ (moduleExports "").networks.map Prod.fst ∧
    ∃ n, (moduleExports "").networks.lookup (moduleExports "").defaultNetwork = some n ∧
      n.accounts ≠ [] :=
  ⟨rfl, loadConfig_default_network_invariant (secretWorld "") (moduleExports "") rfl⟩

/-- C7: loading changes no file: the files after loading are the files before
it (so the content of `.secret` is the same), and the accesses made by loading
are exactly one read of `.secret`, whether loading succeeds or fails. -/
theorem loadConfig_frame (w : World) :
    (loadConfig w).2.files = w.files ∧
    (loadConfig w).2.files.lookup ".secret" = w.files.lookup ".secret" ∧
    (loadConfig w).2.log = w.log ++ [Event.read ".secret"] := by
  rw [loadConfig_world]
  exact ⟨rfl, rfl, rfl⟩

/-- C8: every successfully loaded configuration has the optimizer enabled,
positive `solidity.settings.optimizer.runs` and `mocha.timeout`, and the paths
`"./contracts"`, `"./cache"` and `"./artifacts"` for sources, cache and
artifacts. -/
theorem loadConfig_compiler_and_paths (w : World) (cfg : RootConfig)
    (hok : (loadConfig w).1 = .ok cfg) :
    cfg.solidity.settings.optimizer.enabled = true ∧
    0 < cfg.solidity.settings.optimizer.runs ∧
    0 < cfg.mocha.timeout ∧
    cfg.paths.sources = "./contracts" ∧
    cfg.paths.cache = "./cache" ∧
    cfg.paths.artifacts = "./artifacts" := by
  obtain ⟨b, -, rfl⟩ := loadConfig_ok_inv w cfg hok
  exact ⟨rfl, Nat.succ_pos 199, Nat.succ_pos 19999, rfl, rfl, rfl⟩

theorem loadConfig_compiler_and_paths_witness :
    (loadConfig (secretWorld "deadbeef")).1 = .ok (moduleExports "deadbeef") ∧
    (moduleExports "deadbeef").solidity.settings.optimizer.enabled = true ∧
    0 < (moduleExports "deadbeef").solidity.settings.optimizer.runs ∧
    0 < (moduleExports "deadbeef").mocha.timeout ∧
    (moduleExports "deadbeef").paths.sources = "./contracts" ∧
    (moduleExports "deadbeef").paths.cache = "./cache" ∧
    (moduleExports "deadbeef").paths.artifacts = "./artifacts" :=
  ⟨rfl, loadConfig_compiler_and_paths (secretWorld "deadbeef") (moduleExports "deadbeef") rfl⟩

/-- C9: two successful loads from the texts `s1` and `s2` agree on
`defaultNetwork`, on the names and urls of the networks, on `solidity`, on
`paths` and on `mocha`; when `s1` and `s2` are the same text `core` with white
space added before and after it, they agree on the accounts too, so the two
configurations are equal. -/
theorem loadConfig_secret_only_in_accounts (w1 w2 : World) (s1 s2 : String)
    (cfg1 cfg2 : RootConfig)
    (h1 : w1.files.lookup ".secret" = some (.file ⟨s1⟩))
    (h2 : w2.files.lookup ".secret" = some (.file ⟨s2⟩))
    (hok1 : (loadConfig w1).1 = .ok cfg1)
    (hok2 : (loadConfig w2).1 = .ok cfg2) :
    cfg1.defaultNetwork = cfg2.defaultNetwork ∧
    cfg1.networks.map (fun kn => (kn.1, kn.2.url))
      = cfg2.networks.map (fun kn => (kn.1, kn.2.url)) ∧
    cfg1.solidity = cfg2.solidity ∧
    cfg1.paths = cfg2.paths ∧
    cfg1.mocha = cfg2.mocha ∧
    (∀ l1 r1 l2 r2 core : List Char,
      (∀ x ∈ l1, isStrWhiteSpaceChar x = true) → (∀ x ∈ r1, isStrWhiteSpaceChar x = true) →
      (∀ x ∈ l2, isStrWhiteSpaceChar x = true) → (∀ x ∈ r2, isStrWhiteSpaceChar x = true) →
      s1.data = l1 ++ core ++ r1 → s2.data = l2 ++ core ++ r2 →
      (cfg1.networks.lookup "rinkeby").map NetworkConfig.accounts
        = (cfg2.networks.lookup "rinkeby").map NetworkConfig.accounts ∧
      cfg1 = cfg2) := by
  rw [loadConfig_of_file w1 ⟨s1⟩ h1] at hok1
  rw [loadConfig_of_file w2 ⟨s2⟩ h2] at hok2
  simp only [Except.ok.injEq] at hok1 hok2
  subst hok1
  subst hok2
  refine ⟨rfl, rfl, rfl, rfl, rfl, ?_⟩
  intro l1 r1 l2 r2 core hl1 hr1 hl2 hr2 e1 e2
  have ht : trim s1 = trim s2 := by
    unfold trim
    rw [e1, e2, trim_chars_pad l1 core r1 hl1 hr1, trim_chars_pad l2 core r2 hl2 hr2]
  have hb : (⟨s1⟩ : Buffer).toString = s1 := rfl
  have hb2 : (⟨s2⟩ : Buffer).toString = s2 := rfl
  rw [hb, hb2, ht]
  exact ⟨rfl, rfl⟩

theorem loadConfig_secret_only_in_accounts_witness :
    (moduleExports "k 1").defaultNetwork = (moduleExports "k 1").defaultNetwork ∧
    ((moduleExports "k 1").networks.lookup "rinkeby").map NetworkConfig.accounts
      = ((moduleExports "k 1").networks.lookup "rinkeby").map NetworkConfig.accounts ∧
    (loadConfig (secretWorld " k 1\n")).1 = (loadConfig (secretWorld "\tk 1")).1 :=
  have h := loadConfig_secret_only_in_accounts (secretWorld " k 1\n") (secretWorld "\tk 1")
    " k 1\n" "\tk 1" (moduleExports "k 1") (moduleExports "k 1") rfl rfl rfl rfl
  ⟨h.1,
    (h.2.2.2.2.2 [' '] ['\n'] ['\t'] [] ['k', ' ', '1']
      (by decide) (by decide) (by decide) (by decide) rfl rfl).1,
    rfl⟩

/-- C10: every account of a successfully loaded configuration neither begins
nor ends with a white-space character, and trimming it again gives it back. -/
theorem loadConfig_account_trim_fixed (w : World) (cfg : RootConfig) (n : NetworkConfig)
    (a : String)
    (hok : (loadConfig w).1 = .ok cfg)
    (hn : cfg.networks.lookup "rinkeby" = some n)
    (ha : a ∈ n.accounts) :
    (∀ c, a.data.head? = some c → isStrWhiteSpaceChar c = false) ∧
    (∀ c, a.data.getLast? = some c → isStrWhiteSpaceChar c = false) ∧
    trim a = a := by
  obtain ⟨b, -, rfl⟩ := loadConfig_ok_inv w cfg hok
  have hn' : n = { url := "https://rinkeby.infura.io/v3/", accounts := [trim b.toString] } := by
    have : (moduleExports (trim b.toString)).networks.lookup "rinkeby"
        = some { url := "https://rinkeby.infura.io/v3/", accounts := [trim b.toString] } := rfl
    rw [this] at hn
    exact (Option.some.inj hn).symm
  subst hn'
  have ha' : a = trim b.toString := by simpa using ha
  subst ha'
  refine ⟨trim_chars_head _, trim_chars_getLast _, ?_⟩
  show (⟨trimEnd (trimStart (trimEnd (trimStart b.toString.data)))⟩ : String) = _
  rw [trim_chars_idem]
  rfl

theorem loadConfig_account_trim_fixed_witness :
    (loadConfig (secretWorld "\n 0x5f a9 \r\n")).1 = .ok (moduleExports "0x5f a9") ∧
    (∀ c, "0x5f a9".data.head? = some c → isStrWhiteSpaceChar c = false) ∧
    (∀ c, "0x5f a9".data.getLast? = some c → isStrWhiteSpaceChar c = false) ∧
    trim "0x5f a9" = "0x5f a9" :=
  ⟨rfl, loadConfig_account_trim_fixed (secretWorld "\n 0x5f a9 \r\n") (moduleExports "0x5f a9")
    { url := "https://rinkeby.infura.io/v3/", accounts := ["0x5f a9"] } "0x5f a9" rfl rfl
    (by decide)⟩

end Lottery
